import Mathlib

/-!
Shallow embedding of the `ironds` display module (`src/display/mod.rs`).

Hardware registers are modelled as explicit `Nat` values passed in as the
prior register contents; each operation is a pure function from the prior
value (and its arguments) to the value written back.  Machine integers are
`Nat` (or `Int` for the signed brightness argument) with explicit
`% 2 ^ w` wherever the Rust code truncates.  The bit-packed register types
generated by `modular_bitfield` are modelled as lists of field values
together with the list of declared field widths, packed LSB-first exactly
as the attribute macro lays the fields out in declaration order.
-/

/-- Bitwise complement on a 32-bit word, i.e. Rust `!x` at type `u32`. -/
def not32 (x : Nat) : Nat := 0xFFFFFFFF ^^^ x

/-- `GfxPwr::MAIN_2D = 1 << 1` from the `bitflags!` block. -/
def GfxPwr.MAIN_2D : Nat := 1 <<< 1

/-- `GfxPwr::SUB_2D = 1 << 9`. -/
def GfxPwr.SUB_2D : Nat := 1 <<< 9

/-- `GfxPwr::RENDER_3D = 1 << 2`. -/
def GfxPwr.RENDER_3D : Nat := 1 <<< 2

/-- `GfxPwr::GEOMETRY_3D = 1 << 3`. -/
def GfxPwr.GEOMETRY_3D : Nat := 1 <<< 3

/-- `GfxPwr::ALL_2D = MAIN_2D | SUB_2D`. -/
def GfxPwr.ALL_2D : Nat := GfxPwr.MAIN_2D ||| GfxPwr.SUB_2D

/-- `GfxPwr::ALL = ALL_2D | RENDER_3D | GEOMETRY_3D`. -/
def GfxPwr.ALL : Nat := GfxPwr.ALL_2D ||| GfxPwr.RENDER_3D ||| GfxPwr.GEOMETRY_3D

/-- The `GfxPwr` flag sets obtainable from the named constants by bitwise
union (`|`) and difference (`&` with the complement), mirroring the
`bitflags` operations used with `power_on` / `power_off`. -/
inductive GfxPwrGen : Nat → Prop
  | main2d : GfxPwrGen GfxPwr.MAIN_2D
  | sub2d : GfxPwrGen GfxPwr.SUB_2D
  | render3d : GfxPwrGen GfxPwr.RENDER_3D
  | geometry3d : GfxPwrGen GfxPwr.GEOMETRY_3D
  | all2d : GfxPwrGen GfxPwr.ALL_2D
  | all : GfxPwrGen GfxPwr.ALL
  | union {a b : Nat} : GfxPwrGen a → GfxPwrGen b → GfxPwrGen (a ||| b)
  | diff {a b : Nat} : GfxPwrGen a → GfxPwrGen b → GfxPwrGen (a &&& not32 b)

/-- `power_on`: `POWCNT1.write(POWCNT1.read() | pwrflags.bits())`.
`prior` is the value returned by the volatile read; the result is the value
written back. -/
def power_on (prior pwrflags : Nat) : Nat := prior ||| pwrflags

/-- `power_off`: `POWCNT1.write(POWCNT1.read() & !pwrflags.bits())`. -/
def power_off (prior pwrflags : Nat) : Nat := prior &&& not32 pwrflags

/-- `MainEnginePos { TOP = 1 << 15, BOTTOM = 0 }`. -/
inductive MainEnginePos
  | TOP
  | BOTTOM
deriving DecidableEq

/-- The discriminant value of a `MainEnginePos`, i.e. `pos as u32`. -/
def MainEnginePos.toBits : MainEnginePos → Nat
  | .TOP => 1 <<< 15
  | .BOTTOM => 0

/-- `GfxEngine { MAIN = 0, SUB = 0x1000 }`. -/
inductive GfxEngine
  | MAIN
  | SUB
deriving DecidableEq

/-- The discriminant value of a `GfxEngine`, i.e. `engine as usize`. -/
def GfxEngine.toOffset : GfxEngine → Nat
  | .MAIN => 0
  | .SUB => 0x1000

/-- `set_engine_lcd`:
`POWCNT1.write((POWCNT1.read() & !(MainEnginePos::TOP as u32)) | pos as u32)`. -/
def set_engine_lcd (prior : Nat) (pos : MainEnginePos) : Nat :=
  (prior &&& not32 MainEnginePos.TOP.toBits) ||| pos.toBits

/-- `rgb15`:
`(((x & 0xF80000) >> 19) | ((x & 0x00F800) >> 6) | ((x & 0x0000F8) << 7)) as u16`. -/
def rgb15 (x : Nat) : Nat :=
  (((x &&& 0xF80000) >>> 19) ||| ((x &&& 0x00F800) >>> 6) |||
    ((x &&& 0x0000F8) <<< 7)) % 2 ^ 16

/-- Address computed by the four background-control accessors:
`base + ((bg & 0x3) * 2)`, where `base` is the external `mmio` constant
`BG0CNT_MAIN` (for `set_main_bg_control` / `get_main_bg_control`) or
`BG0CNT_SUB` (for `set_sub_bg_control` / `get_sub_bg_control`). -/
def bg_control_addr (base bg : Nat) : Nat := base + (bg &&& 0x3) * 2

/-- Address written by `set_brightness`:
`(mmio::MASTER_BRIGHT_MAIN | engine as usize) as *mut u32`, with the
external base address as a parameter. -/
def master_bright_addr (base : Nat) (engine : GfxEngine) : Nat :=
  base ||| engine.toOffset

/-- Reduction of an `Int` into the `i32` range by two's-complement
wrapping, as release-mode Rust arithmetic does on overflow. -/
def i32Wrap (n : Int) : Int := (n + 2 ^ 31) % 2 ^ 32 - 2 ^ 31

/-- Rust `n as u32` for an `i32` value: the two's-complement bit pattern. -/
def u32OfI32 (n : Int) : Nat := (n % 2 ^ 32).toNat

/-- Value written by `set_brightness` to the brightness register:
mode starts as `1 << 14` (up); a negative input is negated (wrapping, as
release-mode `-brightness` does) and the mode becomes `2 << 14` (down);
the value is then clamped at 16 and the write is `mode | (brightness as u32)`. -/
def set_brightness_value (brightness : Int) : Nat :=
  let mode : Nat := if brightness < 0 then 2 <<< 14 else 1 <<< 14
  let b1 : Int := if brightness < 0 then i32Wrap (-brightness) else brightness
  let b2 : Int := if b1 > 16 then 16 else b1
  mode ||| u32OfI32 b2

/-- `set_vcount_trigger`: the closure passed to `DISPSTAT.apply` maps the
prior 16-bit register value `x` to
`(x & 0x007F) | (line << 8) | ((line >> 1) & 0x80)`, where `line << 8`
truncates at the `u16` width. -/
def set_vcount_trigger (prior line : Nat) : Nat :=
  (prior &&& 0x007F) ||| ((line <<< 8) % 2 ^ 16) ||| ((line >>> 1) &&& 0x80)

/-- Declared field widths of `DisplayControlMain`, in declaration order
(LSB first): `bg_mode : B3`, then thirteen `bool` fields, `display_mode : B2`,
`vram_display_block : B2`, `tile_obj_1d_bound : B2`, `bm_obj_1d_bound : B1`,
`obj_during_hblank : bool`, `master_tiledata_base : B3`,
`master_tilemap_base : B3`, and two final `bool` fields. -/
def DisplayControlMain.widths : List Nat :=
  [3, 1, 1, 1, 1, 1, 1, 1, 1, 1, 1, 1, 1, 1, 2, 2, 2, 1, 1, 3, 3, 1, 1]

/-- Declared field widths of `DisplayControlSub`, in declaration order
(LSB first), with the `#[skip]` reserved fields kept in place:
`bg_mode : B3`, skip `bool`, twelve `bool` fields, `display_mode : B2`,
skip `B2`, `tile_obj_1d_bound : B2`, skip `B1`, `obj_during_hblank : bool`,
skip `B6`, and two final `bool` fields. -/
def DisplayControlSub.widths : List Nat :=
  [3, 1, 1, 1, 1, 1, 1, 1, 1, 1, 1, 1, 1, 1, 2, 2, 2, 1, 1, 6, 1, 1]

/-- Declared field widths of `BackgroundControl`, in declaration order
(LSB first): `priority : B2`, `tiledata_base : B4`, `mosaic_enabled : bool`,
`palette_setting : B1`, `tilemap_base : B5`, `bit13 : B1`, `screen_size : B2`. -/
def BackgroundControl.widths : List Nat :=
  [2, 4, 1, 1, 5, 1, 2]

/-- Pack a list of field values into a raw word, LSB-first according to the
width list, as `modular_bitfield` lays fields out in declaration order. -/
def packFields : List Nat → List Nat → Nat
  | w :: ws, v :: vs => v ||| (packFields ws vs <<< w)
  | _, _ => 0

/-- Unpack a raw word into its list of field values, LSB-first according to
the width list. -/
def unpackFields : List Nat → Nat → List Nat
  | [], _ => []
  | w :: ws, raw => raw % 2 ^ w :: unpackFields ws (raw >>> w)

/-- Every field value fits in its declared width (the setters generated by
`modular_bitfield` reject out-of-range values). -/
def fieldsValid : List Nat → List Nat → Bool
  | [], [] => true
  | w :: ws, v :: vs => decide (v < 2 ^ w) && fieldsValid ws vs
  | _, _ => false

/-- `u32::from(c)` for a `DisplayControlMain` given as its field list. -/
def DisplayControlMain.toRaw (vs : List Nat) : Nat :=
  packFields DisplayControlMain.widths vs

/-- `DisplayControlMain::from(raw)` as a field list. -/
def DisplayControlMain.fromRaw (raw : Nat) : List Nat :=
  unpackFields DisplayControlMain.widths raw

/-- `u32::from(c)` for a `DisplayControlSub` given as its field list. -/
def DisplayControlSub.toRaw (vs : List Nat) : Nat :=
  packFields DisplayControlSub.widths vs

/-- `DisplayControlSub::from(raw)` as a field list. -/
def DisplayControlSub.fromRaw (raw : Nat) : List Nat :=
  unpackFields DisplayControlSub.widths raw

/-- `u16::from(c)` for a `BackgroundControl` given as its field list. -/
def BackgroundControl.toRaw (vs : List Nat) : Nat :=
  packFields BackgroundControl.widths vs

/-- `BackgroundControl::from(raw)` as a field list. -/
def BackgroundControl.fromRaw (raw : Nat) : List Nat :=
  unpackFields BackgroundControl.widths raw

/-- Bit offset of the field at index `i` of a width list: the sum of the
widths of the fields declared before it. -/
def offsetAt : List Nat → Nat → Nat
  | [], _ => 0
  | _ :: _, 0 => 0
  | w :: ws, i + 1 => w + offsetAt ws i

/-- Width of the field at index `i` of a width list. -/
def widthAt : List Nat → Nat → Nat
  | [], _ => 0
  | w :: _, 0 => w
  | _ :: ws, i + 1 => widthAt ws i

/-- Extract the field of width `w` at bit offset `off` from a raw word, as
a `modular_bitfield` getter does. -/
def getField (raw off w : Nat) : Nat := (raw >>> off) % 2 ^ w

/-- Store value `v` into the field of width `w` at bit offset `off` of a
raw word (clear the field's bits, then or the value in), as a
`modular_bitfield` setter does. -/
def setField (raw off w v : Nat) : Nat :=
  Nat.ldiff raw ((2 ^ w - 1) <<< off) ||| (v <<< off)

/-- Getter for the field at index `i` of a width list. -/
def getFieldAt (ws : List Nat) (i raw : Nat) : Nat :=
  getField raw (offsetAt ws i) (widthAt ws i)

/-- Setter for the field at index `i` of a width list. -/
def setFieldAt (ws : List Nat) (i raw v : Nat) : Nat :=
  setField raw (offsetAt ws i) (widthAt ws i) v

/-! ## Generic bit-manipulation lemmas -/

theorem and_mask_shift (x k w : Nat) :
    x &&& ((2 ^ w - 1) <<< k) = ((x >>> k) % 2 ^ w) <<< k := by
  apply Nat.eq_of_testBit_eq
  intro i
  by_cases hk : k ≤ i
  · simp [Nat.testBit_and, Nat.testBit_shiftLeft, Nat.testBit_shiftRight,
      Nat.testBit_mod_two_pow, hk, Nat.add_sub_cancel' hk]
    cases x.testBit i <;> simp
  · simp [Nat.testBit_and, Nat.testBit_shiftLeft, hk]

theorem shiftLeft_then_shiftRight (y k j : Nat) (h : j ≤ k) :
    (y <<< k) >>> j = y <<< (k - j) := by
  rw [Nat.shiftLeft_eq, Nat.shiftLeft_eq, Nat.shiftRight_eq_div_pow]
  calc y * 2 ^ k / 2 ^ j = y * 2 ^ (k - j) * 2 ^ j / 2 ^ j := by
        rw [Nat.mul_assoc, ← pow_add, Nat.sub_add_cancel h]
    _ = y * 2 ^ (k - j) := Nat.mul_div_cancel _ (Nat.two_pow_pos j)

theorem shiftLeft_or_eq_add (m v i : Nat) (h : v < 2 ^ i) :
    (m <<< i) ||| v = 2 ^ i * m + v := by
  rw [Nat.shiftLeft_eq, Nat.mul_comm, ← Nat.mul_add_lt_is_or h]

theorem testBit_not32 (x i : Nat) :
    Nat.testBit (not32 x) i = Bool.xor (decide (i < 32)) (Nat.testBit x i) := by
  unfold not32
  have hm : Nat.testBit 0xFFFFFFFF i = decide (i < 32) := by
    rw [show (0xFFFFFFFF : Nat) = 2 ^ 32 - 1 by norm_num, Nat.testBit_two_pow_sub_one]
  rw [Nat.testBit_xor, hm]

theorem testBit_ge_32 {x : Nat} (hx : x < 2 ^ 32) {i : Nat} (hi : 32 ≤ i) :
    Nat.testBit x i = false :=
  Nat.testBit_lt_two_pow (lt_of_lt_of_le hx (Nat.pow_le_pow_right (by norm_num) hi))

/-! ## Lemmas about field packing -/

theorem unpackFields_packFields (ws : List Nat) (vs : List Nat)
    (h : fieldsValid ws vs = true) : unpackFields ws (packFields ws vs) = vs := by
  induction ws generalizing vs with
  | nil =>
    cases vs with
    | nil => rfl
    | cons v vs => simp [fieldsValid] at h
  | cons w ws ih =>
    cases vs with
    | nil => simp [fieldsValid] at h
    | cons v vs =>
      simp only [fieldsValid, Bool.and_eq_true, decide_eq_true_eq] at h
      obtain ⟨hv, hrest⟩ := h
      have hor : packFields (w :: ws) (v :: vs) = 2 ^ w * packFields ws vs + v := by
        show v ||| (packFields ws vs <<< w) = _
        rw [Nat.lor_comm, shiftLeft_or_eq_add _ _ _ hv]
      rw [hor]
      show (2 ^ w * packFields ws vs + v) % 2 ^ w ::
        unpackFields ws ((2 ^ w * packFields ws vs + v) >>> w) = v :: vs
      rw [Nat.mul_add_mod, Nat.mod_eq_of_lt hv, Nat.shiftRight_eq_div_pow,
        Nat.mul_add_div (Nat.two_pow_pos w), Nat.div_eq_of_lt hv, Nat.add_zero,
        ih vs hrest]

theorem packFields_unpackFields (ws : List Nat) (raw : Nat)
    (h : raw < 2 ^ ws.sum) : packFields ws (unpackFields ws raw) = raw := by
  induction ws generalizing raw with
  | nil =>
    simp only [List.sum_nil, pow_zero, Nat.lt_one_iff] at h
    simp [packFields, unpackFields, h]
  | cons w ws ih =>
    have hr : raw >>> w < 2 ^ ws.sum := by
      rw [Nat.shiftRight_eq_div_pow]
      apply Nat.div_lt_of_lt_mul
      rw [← pow_add]
      simpa [List.sum_cons] using h
    show raw % 2 ^ w ||| (packFields ws (unpackFields ws (raw >>> w)) <<< w) = raw
    rw [ih _ hr, Nat.lor_comm, shiftLeft_or_eq_add _ _ _ (Nat.mod_lt _ (Nat.two_pow_pos w)),
      Nat.shiftRight_eq_div_pow, Nat.div_add_mod]

theorem testBit_setField_outside (raw off w v b : Nat) (hv : v < 2 ^ w)
    (hb : b < off ∨ off + w ≤ b) :
    Nat.testBit (setField raw off w v) b = Nat.testBit raw b := by
  unfold setField
  rcases hb with hb | hb
  · have hko : ¬ off ≤ b := by omega
    simp [Nat.testBit_or, Nat.testBit_ldiff, Nat.testBit_shiftLeft, hko]
  · have hko : off ≤ b := by omega
    have hvb : v.testBit (b - off) = false :=
      Nat.testBit_lt_two_pow (lt_of_lt_of_le hv (Nat.pow_le_pow_right (by norm_num) (by omega)))
    simp [Nat.testBit_or, Nat.testBit_ldiff, Nat.testBit_shiftLeft, hko,
      Nat.testBit_two_pow_sub_one, hvb]
    omega

theorem getField_setField_disjoint (raw off w v off' w' : Nat) (hv : v < 2 ^ w)
    (hd : off' + w' ≤ off ∨ off + w ≤ off') :
    getField (setField raw off w v) off' w' = getField raw off' w' := by
  unfold getField
  apply Nat.eq_of_testBit_eq
  intro i
  simp only [Nat.testBit_mod_two_pow, Nat.testBit_shiftRight]
  by_cases hi : i < w'
  · rw [testBit_setField_outside raw off w v (off' + i) hv (by omega)]
  · simp [hi]

theorem offsetAt_add_widthAt_le (ws : List Nat) (j i : Nat)
    (hj : j < ws.length) (hji : j < i) :
    offsetAt ws j + widthAt ws j ≤ offsetAt ws i := by
  induction ws generalizing i j with
  | nil => simp at hj
  | cons w ws ih =>
    cases j with
    | zero =>
      cases i with
      | zero => omega
      | succ i => simp [offsetAt, widthAt]
    | succ j =>
      cases i with
      | zero => omega
      | succ i =>
        simp only [offsetAt, widthAt]
        have := ih j i (by simpa using hj) (by omega)
        omega

theorem setFieldAt_frame (ws : List Nat) (i j raw v b : Nat)
    (hv : v < 2 ^ widthAt ws i) :
    ((b < offsetAt ws i ∨ offsetAt ws i + widthAt ws i ≤ b) →
      Nat.testBit (setFieldAt ws i raw v) b = Nat.testBit raw b) ∧
    (i < ws.length → j < ws.length → j ≠ i →
      getFieldAt ws j (setFieldAt ws i raw v) = getFieldAt ws j raw) := by
  constructor
  · intro hb
    exact testBit_setField_outside raw _ _ v b hv hb
  · intro hi hj hne
    unfold getFieldAt setFieldAt
    apply getField_setField_disjoint _ _ _ _ _ _ hv
    rcases Nat.lt_or_ge j i with hji | hij
    · left
      exact offsetAt_add_widthAt_le ws j i hj hji
    · right
      exact offsetAt_add_widthAt_le ws i j hi (by omega)

/-- Characterization of every bit of the value written by
`set_vcount_trigger`: bits 0–6 come from the prior register value, bit 7 is
bit 8 of `line`, and bits 8–15 are the low 8 bits of `line`. -/
theorem vcount_testBit (prior line i : Nat) :
    Nat.testBit (set_vcount_trigger prior line) i =
      ((decide (i < 7) && Nat.testBit prior i) ||
       (decide (i = 7) && Nat.testBit line 8) ||
       (decide (8 ≤ i) && decide (i < 16) && Nat.testBit line (i - 8))) := by
  unfold set_vcount_trigger
  rw [show (0x007F : Nat) = 2 ^ 7 - 1 by norm_num, show (0x80 : Nat) = 2 ^ 7 by norm_num]
  simp only [Nat.testBit_or, Nat.testBit_and, Nat.testBit_mod_two_pow,
    Nat.testBit_shiftLeft, Nat.testBit_shiftRight, Nat.testBit_two_pow_sub_one,
    Nat.testBit_two_pow]
  by_cases h7 : i < 7
  · have h8 : ¬ 8 ≤ i := by omega
    simp [h7, h8, show i ≠ 7 by omega, show ¬ (7 = i) by omega, show i < 16 by omega]
  · by_cases he : i = 7
    · subst he
      norm_num
    · by_cases h16 : i < 16
      · have h8 : 8 ≤ i := by omega
        simp [h7, he, h16, h8, show ¬ (7 = i) by omega]
      · have h8 : 8 ≤ i := by omega
        simp [h7, he, h16, h8, show ¬ (7 = i) by omega]

/-- Claim C1 (counterexample): at prior register value 0 and line 200 the
write is `0xC800`: register bit 7 is 0, not 1 as the claim states
(bit 8 of 200 is 0), and register bit 15 becomes 1 although it was 0 before
the call, so bits outside positions 7–14 are not all preserved. -/
theorem vcount_trigger_bit15_not_preserved :
    set_vcount_trigger 0 200 = 0xC800 ∧
    Nat.testBit (set_vcount_trigger 0 200) 7 = false ∧
    Nat.testBit (set_vcount_trigger 0 200) 15 ≠ Nat.testBit 0 15 := by
  decide

/-- Claim C1 (amended): for a prior 16-bit register value and a line in
[0, 262], `set_vcount_trigger` preserves bits 0–6, writes bit 8 of `line`
into register bit 7, and writes the low 8 bits of `line` into register bits
8–15 (so bits 8–14 hold the low 7 bits of `line` and bit 15 holds bit 7 of
`line` instead of its prior value); the register stays within 16 bits. -/
theorem vcount_trigger_amended (prior line : Nat) (_hp : prior < 2 ^ 16)
    (_hl : line ≤ 262) :
    set_vcount_trigger prior line % 2 ^ 7 = prior % 2 ^ 7 ∧
    Nat.testBit (set_vcount_trigger prior line) 7 = Nat.testBit line 8 ∧
    set_vcount_trigger prior line >>> 8 = line % 2 ^ 8 ∧
    (set_vcount_trigger prior line >>> 8) % 2 ^ 7 = line % 2 ^ 7 ∧
    set_vcount_trigger prior line < 2 ^ 16 := by
  have hlow : set_vcount_trigger prior line % 2 ^ 7 = prior % 2 ^ 7 := by
    apply Nat.eq_of_testBit_eq
    intro i
    simp only [Nat.testBit_mod_two_pow, vcount_testBit]
    by_cases h7 : i < 7
    · simp [h7, show i ≠ 7 by omega, show ¬ 8 ≤ i by omega]
    · simp [h7]
  have hhigh : set_vcount_trigger prior line >>> 8 = line % 2 ^ 8 := by
    apply Nat.eq_of_testBit_eq
    intro i
    simp only [Nat.testBit_shiftRight, Nat.testBit_mod_two_pow, vcount_testBit]
    by_cases h8 : i < 8
    · simp [h8, show ¬ (8 + i < 7) by omega, show 8 + i ≠ 7 by omega,
        show 8 ≤ 8 + i by omega, show 8 + i < 16 by omega, Nat.add_sub_cancel_left]
    · simp [h8, show ¬ (8 + i < 7) by omega, show 8 + i ≠ 7 by omega,
        show ¬ (8 + i < 16) by omega]
  have hbit7 : Nat.testBit (set_vcount_trigger prior line) 7 = Nat.testBit line 8 := by
    rw [vcount_testBit]
    norm_num
  have hlt : set_vcount_trigger prior line < 2 ^ 16 := by
    unfold set_vcount_trigger
    apply Nat.or_lt_two_pow
    apply Nat.or_lt_two_pow
    · exact lt_of_le_of_lt Nat.and_le_right (by norm_num)
    · exact Nat.mod_lt _ (by norm_num)
    · exact lt_of_le_of_lt Nat.and_le_right (by norm_num)
  refine ⟨hlow, hbit7, hhigh, ?_, hlt⟩
  rw [hhigh, Nat.mod_mod_of_dvd _ (by norm_num : (2 : Nat) ^ 7 ∣ 2 ^ 8)]

/-- Witness for the amended C1 theorem at prior value `0x5555`, line 200. -/
theorem vcount_trigger_amended_witness :
    set_vcount_trigger 0x5555 200 % 2 ^ 7 = 0x5555 % 2 ^ 7 ∧
    Nat.testBit (set_vcount_trigger 0x5555 200) 7 = Nat.testBit 200 8 ∧
    set_vcount_trigger 0x5555 200 >>> 8 = 200 % 2 ^ 8 ∧
    (set_vcount_trigger 0x5555 200 >>> 8) % 2 ^ 7 = 200 % 2 ^ 7 ∧
    set_vcount_trigger 0x5555 200 < 2 ^ 16 :=
  vcount_trigger_amended 0x5555 200 (by decide) (by decide)

/-- Claim C2 (counterexample): with prior power-control value 2 (the
`MAIN_2D` bit already set), `power_on(MAIN_2D)` then `power_off(MAIN_2D)`
yields 0, not the prior value 2, so the round trip does not restore every
prior register value. -/
theorem power_round_trip_fails_when_flag_set :
    power_off (power_on 2 GfxPwr.MAIN_2D) GfxPwr.MAIN_2D = 0 ∧ (2 : Nat) ≠ 0 := by
  decide

/-- Claim C2 (amended): `power_on` then `power_off` with the same flag set
yields the prior value with the flag bits cleared; it restores the prior
power-control value exactly when the flag bits were clear in the prior
value. -/
theorem power_on_off_round_trip (prior pwrflags : Nat) (hp : prior < 2 ^ 32)
    (hf : pwrflags < 2 ^ 32) :
    power_off (power_on prior pwrflags) pwrflags = prior &&& not32 pwrflags ∧
    (prior &&& pwrflags = 0 →
      power_off (power_on prior pwrflags) pwrflags = prior) := by
  have h1 : power_off (power_on prior pwrflags) pwrflags = prior &&& not32 pwrflags := by
    unfold power_off power_on
    apply Nat.eq_of_testBit_eq
    intro i
    simp only [Nat.testBit_and, Nat.testBit_or, testBit_not32]
    by_cases h32 : i < 32
    · rw [decide_eq_true h32]
      cases pwrflags.testBit i <;> cases prior.testBit i <;> rfl
    · rw [testBit_ge_32 hf (by omega)]
      cases prior.testBit i <;> rfl
  refine ⟨h1, fun hz => ?_⟩
  rw [h1]
  apply Nat.eq_of_testBit_eq
  intro i
  have hbit : Nat.testBit (prior &&& pwrflags) i = false := by
    rw [hz]
    simp
  rw [Nat.testBit_and] at hbit
  rw [Nat.testBit_and, testBit_not32]
  by_cases h32 : i < 32
  · rw [decide_eq_true h32]
    cases hh : pwrflags.testBit i
    · cases prior.testBit i <;> rfl
    · rw [hh] at hbit
      simp only [Bool.and_true] at hbit
      rw [hbit]
      rfl
  · rw [testBit_ge_32 hp (by omega)]
    rfl

/-- Witness for the amended C2 theorem: prior value `0x8001` does not have
the `MAIN_2D` bit set, and the on/off round trip restores it. -/
theorem power_on_off_round_trip_witness :
    power_off (power_on 0x8001 GfxPwr.MAIN_2D) GfxPwr.MAIN_2D = 0x8001 :=
  (power_on_off_round_trip 0x8001 GfxPwr.MAIN_2D (by decide) (by decide)).2 (by decide)

/-- Claim C3 (counterexample): at input `-2^31` (`i32::MIN`) the wrapping
negation leaves the value negative, so `set_brightness` writes
`0x80008000` — not the down mode with magnitude clamped to 16
(`2 * 2^14 + 16 = 0x8010`) that the claim requires for every `i32` input. -/
theorem set_brightness_min_int_not_clamped :
    set_brightness_value (-(2 ^ 31)) = 0x80008000 ∧
    set_brightness_value (-(2 ^ 31)) ≠
      2 * 2 ^ 14 + min (Int.natAbs (-(2 ^ 31))) 16 := by
  decide

/-- Claim C3 (amended): for every `i32` input other than `i32::MIN`, the
value written by `set_brightness` is the mode (1 = up for non-negative, 2 =
down for negative) in bits 14–15 plus the magnitude clamped to at most 16;
in particular input 20 writes the same value as 16, input -20 the same as
-16, and input 0 writes the up mode with magnitude 0. -/
theorem set_brightness_mode_and_clamp :
    (∀ brightness : Int, -(2 ^ 31) < brightness → brightness < 2 ^ 31 →
      set_brightness_value brightness =
        (if brightness < 0 then 2 else 1) * 2 ^ 14 + min brightness.natAbs 16) ∧
    set_brightness_value 20 = set_brightness_value 16 ∧
    set_brightness_value (-20) = set_brightness_value (-16) ∧
    set_brightness_value 0 = 1 * 2 ^ 14 + 0 := by
  refine ⟨?_, by decide, by decide, by decide⟩
  intro b hlo hhi
  by_cases hneg : b < 0
  · have hw : i32Wrap (-b) = -b := by
      unfold i32Wrap
      omega
    simp only [set_brightness_value, hneg, if_true, hw]
    have hb2 : u32OfI32 (if -b > 16 then 16 else -b) = min b.natAbs 16 := by
      unfold u32OfI32
      split <;> omega
    rw [hb2, shiftLeft_or_eq_add _ _ _ (by omega : min b.natAbs 16 < 2 ^ 14)]
    omega
  · simp only [set_brightness_value, hneg, if_false]
    have hb2 : u32OfI32 (if b > 16 then 16 else b) = min b.natAbs 16 := by
      unfold u32OfI32
      split <;> omega
    rw [hb2, shiftLeft_or_eq_add _ _ _ (by omega : min b.natAbs 16 < 2 ^ 14)]
    omega

/-- Witness for the amended C3 theorem at input -20. -/
theorem set_brightness_mode_and_clamp_witness :
    set_brightness_value (-20) =
      (if (-20 : Int) < 0 then 2 else 1) * 2 ^ 14 + min (Int.natAbs (-20)) 16 :=
  set_brightness_mode_and_clamp.1 (-20) (by decide) (by decide)

/-- Claim C4 (confirmed): for every layer index (any `usize`) the
background-control accessors address the register at the per-engine base
plus `2 * (index mod 4)` bytes, wrapping silently, so index 4 aliases the
register of index 0; this holds for the main and sub bases alike. -/
theorem bg_control_addr_mod_four (base bg : Nat) :
    bg_control_addr base bg = base + 2 * (bg % 4) ∧
      bg_control_addr base bg = bg_control_addr base (bg % 4) ∧
      bg_control_addr base 4 = bg_control_addr base 0 := by
  have h3 : ∀ y : Nat, y &&& 0x3 = y % 4 := fun y => by
    have h := Nat.and_pow_two_sub_one_eq_mod y 2
    norm_num at h
    exact h
  unfold bg_control_addr
  rw [h3, h3, h3, h3]
  omega

/-- Claim C5 (confirmed): for each bit-packed register type, packing any
valid field assignment and unpacking it returns every field value, and
unpacking any raw word of the storage width then repacking reproduces the
raw word exactly, the skipped (reserved) positions being carried through
as captured passthrough. -/
theorem bitfield_round_trip :
    (∀ vs, fieldsValid DisplayControlMain.widths vs = true →
      DisplayControlMain.fromRaw (DisplayControlMain.toRaw vs) = vs) ∧
    (∀ raw, raw < 2 ^ 32 →
      DisplayControlMain.toRaw (DisplayControlMain.fromRaw raw) = raw) ∧
    (∀ vs, fieldsValid DisplayControlSub.widths vs = true →
      DisplayControlSub.fromRaw (DisplayControlSub.toRaw vs) = vs) ∧
    (∀ raw, raw < 2 ^ 32 →
      DisplayControlSub.toRaw (DisplayControlSub.fromRaw raw) = raw) ∧
    (∀ vs, fieldsValid BackgroundControl.widths vs = true →
      BackgroundControl.fromRaw (BackgroundControl.toRaw vs) = vs) ∧
    (∀ raw, raw < 2 ^ 16 →
      BackgroundControl.toRaw (BackgroundControl.fromRaw raw) = raw) := by
  have hm : DisplayControlMain.widths.sum = 32 := by decide
  have hs : DisplayControlSub.widths.sum = 32 := by decide
  have hb : BackgroundControl.widths.sum = 16 := by decide
  refine ⟨fun vs h => unpackFields_packFields _ vs h,
    fun raw h => packFields_unpackFields _ raw (by rw [hm]; exact h),
    fun vs h => unpackFields_packFields _ vs h,
    fun raw h => packFields_unpackFields _ raw (by rw [hs]; exact h),
    fun vs h => unpackFields_packFields _ vs h,
    fun raw h => packFields_unpackFields _ raw (by rw [hb]; exact h)⟩

/-- Witness for C5: a concrete valid field assignment for the main display
control round-trips, and concrete raw words round-trip for the sub display
control and background control. -/
theorem bitfield_round_trip_witness :
    DisplayControlMain.fromRaw (DisplayControlMain.toRaw
        [5, 1, 0, 1, 0, 1, 1, 0, 1, 0, 1, 0, 0, 1, 2, 3, 1, 0, 1, 5, 6, 1, 0]) =
      [5, 1, 0, 1, 0, 1, 1, 0, 1, 0, 1, 0, 0, 1, 2, 3, 1, 0, 1, 5, 6, 1, 0] ∧
    DisplayControlSub.toRaw (DisplayControlSub.fromRaw 0xDEADBEEF) = 0xDEADBEEF ∧
    BackgroundControl.toRaw (BackgroundControl.fromRaw 0xBEEF) = 0xBEEF :=
  ⟨bitfield_round_trip.1 _ (by decide),
   bitfield_round_trip.2.2.2.1 0xDEADBEEF (by decide),
   bitfield_round_trip.2.2.2.2.2 0xBEEF (by decide)⟩

/-- Claim C6 (confirmed): `rgb15` extracts the top 5 bits of each 8-bit
channel of a packed `0xRRGGBB` colour and repacks red into the lowest 5
bits, then green, then blue; the three concrete instances
`rgb15 0xFFFFFF = 0x7FFF`, `rgb15 0 = 0`, `rgb15 0xF80000 = 0x001F` hold. -/
theorem rgb15_channel_extraction :
    (∀ r g b : Nat, r < 256 → g < 256 → b < 256 →
      rgb15 (r * 2 ^ 16 + g * 2 ^ 8 + b) =
        (r >>> 3) + (g >>> 3) * 2 ^ 5 + (b >>> 3) * 2 ^ 10) ∧
    rgb15 0xFFFFFF = 0x7FFF ∧ rgb15 0x000000 = 0x0000 ∧
      rgb15 0xF80000 = 0x001F := by
  refine ⟨?_, by decide, by decide, by decide⟩
  intro r g b hr hg hb
  have e1 : ((r * 2 ^ 16 + g * 2 ^ 8 + b) &&& 0xF80000) >>> 19 = r / 8 := by
    rw [show (0xF80000 : Nat) = (2 ^ 5 - 1) <<< 19 by decide, and_mask_shift,
      shiftLeft_then_shiftRight _ _ _ (le_refl 19), Nat.sub_self, Nat.shiftLeft_zero,
      Nat.shiftRight_eq_div_pow]
    omega
  have e2 : ((r * 2 ^ 16 + g * 2 ^ 8 + b) &&& 0x00F800) >>> 6 = g / 8 * 2 ^ 5 := by
    rw [show (0x00F800 : Nat) = (2 ^ 5 - 1) <<< 11 by decide, and_mask_shift,
      shiftLeft_then_shiftRight _ _ _ (by norm_num : 6 ≤ 11),
      Nat.shiftRight_eq_div_pow, Nat.shiftLeft_eq]
    norm_num
    omega
  have e3 : ((r * 2 ^ 16 + g * 2 ^ 8 + b) &&& 0x0000F8) <<< 7 = b / 8 * 2 ^ 10 := by
    rw [show (0x0000F8 : Nat) = (2 ^ 5 - 1) <<< 3 by decide, and_mask_shift,
      Nat.shiftLeft_eq, Nat.shiftLeft_eq, Nat.shiftRight_eq_div_pow]
    have hmid : (r * 2 ^ 16 + g * 2 ^ 8 + b) / 2 ^ 3 % 2 ^ 5 = b / 8 := by omega
    rw [hmid]
    ring
  rw [rgb15, e1, e2, e3]
  have hor1 : r / 8 ||| g / 8 * 2 ^ 5 = 2 ^ 5 * (g / 8) + r / 8 := by
    rw [Nat.lor_comm, show g / 8 * 2 ^ 5 = (g / 8) <<< 5 by rw [Nat.shiftLeft_eq],
      shiftLeft_or_eq_add _ _ _ (by omega : r / 8 < 2 ^ 5)]
  have hor2 : 2 ^ 5 * (g / 8) + r / 8 ||| b / 8 * 2 ^ 10 =
      2 ^ 10 * (b / 8) + (2 ^ 5 * (g / 8) + r / 8) := by
    rw [Nat.lor_comm, show b / 8 * 2 ^ 10 = (b / 8) <<< 10 by rw [Nat.shiftLeft_eq],
      shiftLeft_or_eq_add _ _ _ (by omega : 2 ^ 5 * (g / 8) + r / 8 < 2 ^ 10)]
  rw [hor1, hor2, Nat.mod_eq_of_lt (by omega), Nat.shiftRight_eq_div_pow,
    Nat.shiftRight_eq_div_pow, Nat.shiftRight_eq_div_pow]
  omega

/-- Witness for C6 at the colour `0xABCD12`. -/
theorem rgb15_channel_extraction_witness :
    rgb15 (0xAB * 2 ^ 16 + 0xCD * 2 ^ 8 + 0x12) =
      (0xAB >>> 3) + (0xCD >>> 3) * 2 ^ 5 + (0x12 >>> 3) * 2 ^ 10 :=
  rgb15_channel_extraction.1 0xAB 0xCD 0x12 (by decide) (by decide) (by decide)

/-- Claim C7 (confirmed): the declared field widths (skipped positions
included) of each bit-packed register type sum to exactly the storage
width — 32 bits for `DisplayControlMain` and `DisplayControlSub`, 16 bits
for `BackgroundControl` — and the LSB-first sequential layout therefore has
no gaps or overlaps. -/
theorem bitfield_widths_sum_to_storage :
    DisplayControlMain.widths.sum = 32 ∧ DisplayControlSub.widths.sum = 32 ∧
      BackgroundControl.widths.sum = 16 := by
  decide

/-- Claim C8 (confirmed): `set_engine_lcd` writes back the prior
power-control value with bit 15 replaced by the selected position bit
(set exactly for `TOP`), leaving every bit other than bit 15 unchanged. -/
theorem set_engine_lcd_frame (prior : Nat) (pos : MainEnginePos)
    (hp : prior < 2 ^ 32) :
    (∀ i, i ≠ 15 → Nat.testBit (set_engine_lcd prior pos) i = Nat.testBit prior i) ∧
    Nat.testBit (set_engine_lcd prior pos) 15 = decide (pos = MainEnginePos.TOP) := by
  have htop : MainEnginePos.TOP.toBits = 2 ^ 15 := by
    show (1 <<< 15 : Nat) = 2 ^ 15
    rw [Nat.shiftLeft_eq, one_mul]
  have hbot : MainEnginePos.BOTTOM.toBits = 0 := rfl
  constructor
  · intro i hi
    unfold set_engine_lcd
    cases pos
    · rw [htop, Nat.testBit_or, Nat.testBit_and, testBit_not32, Nat.testBit_two_pow,
        decide_eq_false (by omega : ¬ (15 = i))]
      by_cases h32 : i < 32
      · rw [decide_eq_true h32]
        cases prior.testBit i <;> rfl
      · rw [testBit_ge_32 hp (by omega), decide_eq_false h32]
        rfl
    · rw [htop, hbot, Nat.testBit_or, Nat.testBit_and, testBit_not32,
        Nat.testBit_two_pow, decide_eq_false (by omega : ¬ (15 = i)),
        Nat.zero_testBit]
      by_cases h32 : i < 32
      · rw [decide_eq_true h32]
        cases prior.testBit i <;> rfl
      · rw [testBit_ge_32 hp (by omega), decide_eq_false h32]
        rfl
  · unfold set_engine_lcd
    cases pos
    · rw [htop, Nat.testBit_or, Nat.testBit_and, testBit_not32, Nat.testBit_two_pow]
      simp
    · rw [htop, hbot, Nat.testBit_or, Nat.testBit_and, testBit_not32,
        Nat.testBit_two_pow, Nat.zero_testBit]
      simp

/-- Witness for C8 at prior value `0xABCD`, position `TOP`, bit 3. -/
theorem set_engine_lcd_frame_witness :
    Nat.testBit (set_engine_lcd 0xABCD MainEnginePos.TOP) 3 = Nat.testBit 0xABCD 3 ∧
    Nat.testBit (set_engine_lcd 0xABCD MainEnginePos.TOP) 15 =
      decide (MainEnginePos.TOP = MainEnginePos.TOP) :=
  ⟨(set_engine_lcd_frame 0xABCD MainEnginePos.TOP (by decide)).1 3 (by decide),
   (set_engine_lcd_frame 0xABCD MainEnginePos.TOP (by decide)).2⟩

/-- Claim C9 (confirmed): for each bit-packed register type, storing any
value that fits a field changes only that field's declared bit positions:
every bit outside the field's range — in particular every other field and
every skipped (reserved) position — reads back unchanged.  The model is a
pure function of the in-memory word; no hardware state appears. -/
theorem field_mutators_touch_only_own_bits :
    (∀ i j raw v b, v < 2 ^ widthAt DisplayControlMain.widths i →
      ((b < offsetAt DisplayControlMain.widths i ∨
          offsetAt DisplayControlMain.widths i + widthAt DisplayControlMain.widths i ≤ b) →
        Nat.testBit (setFieldAt DisplayControlMain.widths i raw v) b = Nat.testBit raw b) ∧
      (i < DisplayControlMain.widths.length → j < DisplayControlMain.widths.length →
        j ≠ i → getFieldAt DisplayControlMain.widths j
          (setFieldAt DisplayControlMain.widths i raw v) =
            getFieldAt DisplayControlMain.widths j raw)) ∧
    (∀ i j raw v b, v < 2 ^ widthAt DisplayControlSub.widths i →
      ((b < offsetAt DisplayControlSub.widths i ∨
          offsetAt DisplayControlSub.widths i + widthAt DisplayControlSub.widths i ≤ b) →
        Nat.testBit (setFieldAt DisplayControlSub.widths i raw v) b = Nat.testBit raw b) ∧
      (i < DisplayControlSub.widths.length → j < DisplayControlSub.widths.length →
        j ≠ i → getFieldAt DisplayControlSub.widths j
          (setFieldAt DisplayControlSub.widths i raw v) =
            getFieldAt DisplayControlSub.widths j raw)) ∧
    (∀ i j raw v b, v < 2 ^ widthAt BackgroundControl.widths i →
      ((b < offsetAt BackgroundControl.widths i ∨
          offsetAt BackgroundControl.widths i + widthAt BackgroundControl.widths i ≤ b) →
        Nat.testBit (setFieldAt BackgroundControl.widths i raw v) b = Nat.testBit raw b) ∧
      (i < BackgroundControl.widths.length → j < BackgroundControl.widths.length →
        j ≠ i → getFieldAt BackgroundControl.widths j
          (setFieldAt BackgroundControl.widths i raw v) =
            getFieldAt BackgroundControl.widths j raw)) :=
  ⟨fun i j raw v b hv => setFieldAt_frame _ i j raw v b hv,
   fun i j raw v b hv => setFieldAt_frame _ i j raw v b hv,
   fun i j raw v b hv => setFieldAt_frame _ i j raw v b hv⟩

/-- Witness for C9: storing 9 into field 1 (`tiledata_base`) of a concrete
`BackgroundControl` word leaves bit 0 and field 4 (`tilemap_base`)
unchanged. -/
theorem field_mutators_touch_only_own_bits_witness :
    Nat.testBit (setFieldAt BackgroundControl.widths 1 0xABCD 9) 0 =
      Nat.testBit 0xABCD 0 ∧
    getFieldAt BackgroundControl.widths 4 (setFieldAt BackgroundControl.widths 1 0xABCD 9) =
      getFieldAt BackgroundControl.widths 4 0xABCD :=
  ⟨(field_mutators_touch_only_own_bits.2.2 1 4 0xABCD 9 0 (by decide)).1 (by decide),
   (field_mutators_touch_only_own_bits.2.2 1 4 0xABCD 9 0 (by decide)).2
     (by decide) (by decide) (by decide)⟩

/-- Every `GfxPwr` set generated from the named constants by union and
difference has all its set bits within the mask `0x20E`
(bits 1, 2, 3 and 9). -/
theorem gfxPwrGen_mask {f : Nat} (h : GfxPwrGen f) : f &&& 0x20E = f := by
  induction h with
  | main2d => decide
  | sub2d => decide
  | render3d => decide
  | geometry3d => decide
  | all2d => decide
  | all => decide
  | union ha hb iha ihb =>
    apply Nat.eq_of_testBit_eq
    intro i
    have h1 := congrArg (fun n => Nat.testBit n i) iha
    have h2 := congrArg (fun n => Nat.testBit n i) ihb
    simp only [Nat.testBit_and, Nat.testBit_or] at h1 h2 ⊢
    cases hm : Nat.testBit 0x20E i <;> rw [hm] at h1 h2 <;>
      cases hx : Nat.testBit _ i <;> simp_all
  | diff ha hb iha ihb =>
    apply Nat.eq_of_testBit_eq
    intro i
    have h1 := congrArg (fun n => Nat.testBit n i) iha
    simp only [Nat.testBit_and, Nat.testBit_or] at h1 ⊢
    cases hm : Nat.testBit 0x20E i <;> rw [hm] at h1 <;> simp_all

/-- The mask `0x20E` has no bit set outside positions 1, 2, 3 and 9. -/
theorem testBit_mask_20E_outside {i : Nat} (h1 : i ≠ 1) (h2 : i ≠ 2) (h3 : i ≠ 3)
    (h9 : i ≠ 9) : Nat.testBit 0x20E i = false := by
  by_cases hlt : i < 10
  · interval_cases i <;> simp_all <;> decide
  · exact Nat.testBit_lt_two_pow (by
      calc (0x20E : Nat) < 2 ^ 10 := by norm_num
        _ ≤ 2 ^ i := Nat.pow_le_pow_right (by norm_num) (by omega))

/-- Claim C10 (confirmed): every `GfxPwr` flag set formed from the named
constants by union and difference occupies only bit positions 1, 2, 3
and 9, and `power_on` / `power_off` applied with such a set change no
other bit of the power-control register — in particular never the
screen-assignment bit 15 used by `set_engine_lcd`. -/
theorem gfxpwr_flags_occupy_known_bits :
    ∀ f, GfxPwrGen f →
      f &&& 0x20E = f ∧
      ∀ prior i, prior < 2 ^ 32 → i ≠ 1 → i ≠ 2 → i ≠ 3 → i ≠ 9 →
        Nat.testBit (power_on prior f) i = Nat.testBit prior i ∧
        Nat.testBit (power_off prior f) i = Nat.testBit prior i := by
  intro f h
  have hmask := gfxPwrGen_mask h
  refine ⟨hmask, fun prior i hp h1 h2 h3 h9 => ?_⟩
  have hf : Nat.testBit f i = false := by
    have hc := congrArg (fun n => Nat.testBit n i) hmask
    simp only [Nat.testBit_and] at hc
    rw [testBit_mask_20E_outside h1 h2 h3 h9, Bool.and_false] at hc
    exact hc.symm
  constructor
  · unfold power_on
    rw [Nat.testBit_or, hf, Bool.or_false]
  · unfold power_off
    rw [Nat.testBit_and, testBit_not32, hf]
    by_cases h32 : i < 32
    · rw [decide_eq_true h32]
      cases prior.testBit i <;> rfl
    · rw [testBit_ge_32 hp (by omega), decide_eq_false h32]
      rfl

/-- Witness for C10: `power_on` and `power_off` with `GfxPwr::ALL` leave
bit 15 of the prior value `0x8000` unchanged. -/
theorem gfxpwr_flags_occupy_known_bits_witness :
    Nat.testBit (power_on 0x8000 GfxPwr.ALL) 15 = Nat.testBit 0x8000 15 ∧
    Nat.testBit (power_off 0x8000 GfxPwr.ALL) 15 = Nat.testBit 0x8000 15 :=
  (gfxpwr_flags_occupy_known_bits GfxPwr.ALL GfxPwrGen.all).2 0x8000 15
    (by decide) (by decide) (by decide) (by decide) (by decide)
